import Mathlib

/-
Verification of the Taira-Colonius immersed-boundary coupling-operator
assembly of PetIBM (src/solvers/TairaColonius/generateBNQ.inl).

The development shallowly embeds:
  * the discrete delta kernel dhRoma and its 2D product form delta,
    over exact real arithmetic (PetscReal modelled as real numbers);
  * the two-pass 2D builder TairaColoniusSolver<2>::generateBNQ:
    Pass 1 predicts the per-row diagonal/off-diagonal nonzero counts
    (d_nnz, o_nnz) and Pass 2 inserts the matrix entries; mesh and body
    coordinates are modelled over the rationals so that the proximity
    tests are decidable, while inserted values live in the reals;
  * the finalization sequence (assemble, transpose, diagonal scale);
  * the 3D specialization, whose entire body is commented out in the
    source and which is therefore the identity on the solver state.
-/

namespace PetIBM

/-! ### Discrete delta kernel -/

/-- Middle branch of the Roma delta function, used by
dhRoma when 0.5 < r <= 1.5 (source line 7):
value 1/(6h) * (5 - 3r - sqrt(-3(1-r)(1-r) + 1)). -/
noncomputable def dhRomaMid (r h : ℝ) : ℝ :=
  1 / (6 * h) * (5 - 3 * r - Real.sqrt (-3 * (1 - r) * (1 - r) + 1))

/-- Inner branch of the Roma delta function, used by
dhRoma when r <= 0.5 (source line 9):
value 1/(3h) * (1 + sqrt(-3 r r + 1)). -/
noncomputable def dhRomaIn (r h : ℝ) : ℝ :=
  1 / (3 * h) * (1 + Real.sqrt (-3 * r * r + 1))

/-- The regularized discrete delta function of Roma et al., as implemented
by dhRoma(x, h) (source lines 1-10): with r = |x|/h, the value is 0 for
r > 1.5, the middle branch for 0.5 < r <= 1.5, and the inner branch
otherwise. -/
noncomputable def dhRoma (x h : ℝ) : ℝ :=
  let r := |x| / h
  if r > 3 / 2 then 0
  else if r > 1 / 2 ∧ r ≤ 3 / 2 then dhRomaMid r h
  else dhRomaIn r h

/-- Two-dimensional kernel delta(x, y, h) = dhRoma(x, h) * dhRoma(y, h)
(source lines 12-15). -/
noncomputable def delta (x y h : ℝ) : ℝ :=
  dhRoma x h * dhRoma y h

/-! ### Data model for the 2D builder -/

/-- Per-axis coordinate arrays of the structured Cartesian mesh
(the fields mesh->x and mesh->y read by the builder). -/
structure CartesianMesh where
  x : ℤ → ℚ
  y : ℤ → ℚ

/-- The solver state read by TairaColoniusSolver<2>::generateBNQ:
the mesh, the local corners of the u and v staggered grids (as returned by
DMDAGetCorners on uda and vda), the global pressure-index field pMapping
(pGlobalIdx, whose entries are global indices), the ownership ranges of q
and lambda, and the Lagrangian body-point bookkeeping (per-process point
index lists, global body-force indices, per-process point counts, body
coordinates x[], y[], and the grid spacing h). -/
structure TairaColoniusSolver2 where
  mesh : CartesianMesh
  uMstart : ℤ
  uNstart : ℤ
  uM : ℕ
  uN : ℕ
  vMstart : ℤ
  vNstart : ℤ
  vM : ℕ
  vN : ℕ
  pGlobalIdx : ℤ → ℤ → ℤ
  qStart : ℤ
  lambdaStart : ℤ
  lambdaEnd : ℤ
  numProcs : ℕ
  boundaryPointIndices : ℕ → List ℕ
  bodyGlobalIndices : ℕ → ℤ
  numBoundaryPointsOnProcess : ℕ → ℤ
  x : ℕ → ℚ
  y : ℕ → ℚ
  h : ℚ

/-- Modelled from the spec: the helper countNumNonZeros (declared outside
this file; only its call sites appear in the source) splits the candidate
columns of one row into the count falling in the diagonal block (column in
[lambdaStart, lambdaEnd)) and the count falling in the off-diagonal block,
initializing d_nnz[localIdx] and o_nnz[localIdx] for that row. -/
def countNumNonZeros (cols : List ℤ) (lambdaStart lambdaEnd : ℤ) : ℕ × ℕ :=
  (cols.countP (fun c => decide (lambdaStart ≤ c ∧ c < lambdaEnd)),
   cols.countP (fun c => !decide (lambdaStart ≤ c ∧ c < lambdaEnd)))

/-! ### Pass 1: nonzero-structure prediction (source lines 46-102) -/

/-- ET portion of Pass 1 for a U-velocity row (source lines 62-72): scan the
body points of every process; each point within 1.5 h of the face location on
both axes contributes one nonzero, counted in the diagonal part when its
column bodyGlobalIndices[l] lies in [lambdaStart, lambdaEnd) and in the
off-diagonal part otherwise. -/
def etCountU (s : TairaColoniusSolver2) (xCoord yCoord : ℚ) (nnz : ℕ × ℕ) :
    ℕ × ℕ :=
  (List.range s.numProcs).foldl (fun nnz1 procIdx =>
    (s.boundaryPointIndices procIdx).foldl (fun nnz2 l =>
      if |xCoord - s.x l| < 3 / 2 * s.h ∧ |yCoord - s.y l| < 3 / 2 * s.h then
        if s.lambdaStart ≤ s.bodyGlobalIndices l ∧
            s.bodyGlobalIndices l < s.lambdaEnd then
          (nnz2.1 + 1, nnz2.2)
        else
          (nnz2.1, nnz2.2 + 1)
      else nnz2) nnz1) nnz

/-- ET portion of Pass 1 for a V-velocity row (source lines 89-99): as for U
rows, but the body-force column is offset to
bodyGlobalIndices[l] + numBoundaryPointsOnProcess[procIdx]. -/
def etCountV (s : TairaColoniusSolver2) (xCoord yCoord : ℚ) (nnz : ℕ × ℕ) :
    ℕ × ℕ :=
  (List.range s.numProcs).foldl (fun nnz1 procIdx =>
    (s.boundaryPointIndices procIdx).foldl (fun nnz2 l =>
      if |xCoord - s.x l| < 3 / 2 * s.h ∧ |yCoord - s.y l| < 3 / 2 * s.h then
        if s.lambdaStart ≤ s.bodyGlobalIndices l +
              s.numBoundaryPointsOnProcess procIdx ∧
            s.bodyGlobalIndices l + s.numBoundaryPointsOnProcess procIdx <
              s.lambdaEnd then
          (nnz2.1 + 1, nnz2.2)
        else
          (nnz2.1, nnz2.2 + 1)
      else nnz2) nnz1) nnz

/-- Pass 1 for one U row at grid position (j, i) (source lines 51-75): face
location (mesh->x[i+1], (mesh->y[j]+mesh->y[j+1])/2), two gradient columns
pGlobalIdx[j][i] and pGlobalIdx[j][i+1] split by countNumNonZeros, then the
ET contributions. -/
def pass1RowU (s : TairaColoniusSolver2) (j i : ℤ) : ℕ × ℕ :=
  etCountU s (s.mesh.x (i + 1)) (1 / 2 * (s.mesh.y j + s.mesh.y (j + 1)))
    (countNumNonZeros [s.pGlobalIdx j i, s.pGlobalIdx j (i + 1)]
      s.lambdaStart s.lambdaEnd)

/-- Pass 1 for one V row at grid position (j, i) (source lines 78-102): face
location ((mesh->x[i]+mesh->x[i+1])/2, mesh->y[j+1]), gradient columns
pGlobalIdx[j][i] and pGlobalIdx[j+1][i], then the ET contributions. -/
def pass1RowV (s : TairaColoniusSolver2) (j i : ℤ) : ℕ × ℕ :=
  etCountV s (1 / 2 * (s.mesh.x i + s.mesh.x (i + 1))) (s.mesh.y (j + 1))
    (countNumNonZeros [s.pGlobalIdx j i, s.pGlobalIdx (j + 1) i]
      s.lambdaStart s.lambdaEnd)

/-! ### Pass 2: value fill (source lines 114-173) -/

/-- C++ conversion of a floating-point value to an integer truncates toward
zero.  The Pass 2 variable value is declared PetscInt (source line 27), so
the assignments value = h*delta(...) at source lines 137 and 166 pass
through this conversion before MatSetValue receives the value (converted
back to PetscScalar at the call). -/
noncomputable def truncToInt (v : ℝ) : ℤ :=
  if 0 ≤ v then ⌊v⌋ else ⌈v⌉

/-- ET portion of Pass 2 for a U row (source lines 130-141): for each body
point of each process passing the same proximity test as Pass 1, insert
into column bodyGlobalIndices[l] the value obtained by storing
h * delta(xCoord - x[l], yCoord - y[l], h) in the PetscInt variable value
(truncation toward zero, source line 27) and passing it to MatSetValue. -/
noncomputable def etEntriesU (s : TairaColoniusSolver2) (xCoord yCoord : ℚ) :
    List (ℤ × ℝ) :=
  (List.range s.numProcs).flatMap (fun procIdx =>
    (s.boundaryPointIndices procIdx).filterMap (fun l =>
      if |xCoord - s.x l| < 3 / 2 * s.h ∧ |yCoord - s.y l| < 3 / 2 * s.h then
        some (s.bodyGlobalIndices l,
          ((truncToInt ((s.h : ℝ) * delta ((xCoord - s.x l : ℚ) : ℝ)
            ((yCoord - s.y l : ℚ) : ℝ) (s.h : ℝ)) : ℤ) : ℝ))
      else none))

/-- ET portion of Pass 2 for a V row (source lines 159-170): as for U rows,
with column bodyGlobalIndices[l] + numBoundaryPointsOnProcess[procIdx] and
the same truncation of the value through the PetscInt variable. -/
noncomputable def etEntriesV (s : TairaColoniusSolver2) (xCoord yCoord : ℚ) :
    List (ℤ × ℝ) :=
  (List.range s.numProcs).flatMap (fun procIdx =>
    (s.boundaryPointIndices procIdx).filterMap (fun l =>
      if |xCoord - s.x l| < 3 / 2 * s.h ∧ |yCoord - s.y l| < 3 / 2 * s.h then
        some (s.bodyGlobalIndices l + s.numBoundaryPointsOnProcess procIdx,
          ((truncToInt ((s.h : ℝ) * delta ((xCoord - s.x l : ℚ) : ℝ)
            ((yCoord - s.y l : ℚ) : ℝ) (s.h : ℝ)) : ℤ) : ℝ))
      else none))

/-- Pass 2 for one U row at (j, i) (source lines 117-144): the G portion
inserts values {-1, 1} into columns pGlobalIdx[j][i], pGlobalIdx[j][i+1],
followed by the ET entries at the same face location as Pass 1. -/
noncomputable def pass2RowU (s : TairaColoniusSolver2) (j i : ℤ) :
    List (ℤ × ℝ) :=
  [(s.pGlobalIdx j i, (-1 : ℝ)), (s.pGlobalIdx j (i + 1), (1 : ℝ))] ++
    etEntriesU s (s.mesh.x (i + 1)) (1 / 2 * (s.mesh.y j + s.mesh.y (j + 1)))

/-- Pass 2 for one V row at (j, i) (source lines 146-173): the G portion
inserts values {-1, 1} into columns pGlobalIdx[j][i], pGlobalIdx[j+1][i],
followed by the ET entries at the same face location as Pass 1. -/
noncomputable def pass2RowV (s : TairaColoniusSolver2) (j i : ℤ) :
    List (ℤ × ℝ) :=
  [(s.pGlobalIdx j i, (-1 : ℝ)), (s.pGlobalIdx (j + 1) i, (1 : ℝ))] ++
    etEntriesV s (1 / 2 * (s.mesh.x i + s.mesh.x (i + 1))) (s.mesh.y (j + 1))

/-! ### Row enumeration (localIdx order: U rows j-major, then V rows) -/

/-- Local U faces in localIdx order: j runs over
[uNstart, uNstart + uN) in the outer loop and i over
[uMstart, uMstart + uM) in the inner loop. -/
def uFaces (s : TairaColoniusSolver2) : List (ℤ × ℤ) :=
  (List.range s.uN).flatMap (fun j =>
    (List.range s.uM).map (fun i => (s.uNstart + j, s.uMstart + i)))

/-- Local V faces in localIdx order, continuing after the U faces. -/
def vFaces (s : TairaColoniusSolver2) : List (ℤ × ℤ) :=
  (List.range s.vN).flatMap (fun j =>
    (List.range s.vM).map (fun i => (s.vNstart + j, s.vMstart + i)))

/-- The (d_nnz, o_nnz) pairs produced by Pass 1, indexed by localIdx:
all U rows in loop order, then all V rows. -/
def pass1Counts (s : TairaColoniusSolver2) : List (ℕ × ℕ) :=
  (uFaces s).map (fun ji => pass1RowU s ji.1 ji.2) ++
    (vFaces s).map (fun ji => pass1RowV s ji.1 ji.2)

/-- The per-row entry lists inserted by Pass 2, indexed by localIdx:
all U rows in loop order, then all V rows (row localIdx is inserted at
global row localIdx + qStart, so localIdx order is row order). -/
noncomputable def pass2Rows (s : TairaColoniusSolver2) :
    List (List (ℤ × ℝ)) :=
  (uFaces s).map (fun ji => pass2RowU s ji.1 ji.2) ++
    (vFaces s).map (fun ji => pass2RowV s ji.1 ji.2)

/-! ### Finalization (source lines 176-180) and the 3D specialization -/

/-- Sparse matrices are modelled extensionally by their entry function. -/
abbrev Mat : Type := ℤ → ℤ → ℝ

/-- MatTranspose(A, MAT_INITIAL_MATRIX, &B) yields the transpose. -/
def MatTranspose (A : Mat) : Mat :=
  fun i j => A j i

/-- MatDiagonalScale(A, d, NULL) scales row i of A by d i. -/
def MatDiagonalScale (A : Mat) (d : ℤ → ℝ) : Mat :=
  fun i j => d i * A i j

/-- The tail of generateBNQ after both passes (source lines 176-180):
assemble BNQ, then form QT as the transpose of BNQ, then diagonally scale
BNQ by BN.  The result is the pair (final BNQ, QT). -/
def finalizeBNQ (BNQ : Mat) (BN : ℤ → ℝ) : Mat × Mat :=
  let QT := MatTranspose BNQ
  let scaledBNQ := MatDiagonalScale BNQ BN
  (scaledBNQ, QT)

/-- State touched by TairaColoniusSolver<3>::generateBNQ if it were
implemented: the operators BNQ and QT, the scaling vector BN, and the rest
of the solver state abstracted as one component. -/
structure TairaColoniusSolver3 where
  BNQ : Mat
  QT : Mat
  BN : ℤ → ℝ
  rest : ℕ → ℝ

/-- TairaColoniusSolver<3>::generateBNQ (source lines 183-325): the whole
function body is commented out, so the call does nothing and returns with
the solver state unchanged. -/
def TairaColoniusSolver3.generateBNQ (s : TairaColoniusSolver3) :
    TairaColoniusSolver3 :=
  s

/-! ### Branch lemmas for the kernel -/

/-- Outer branch: the kernel vanishes beyond 1.5 grid spacings. -/
lemma dhRoma_of_gt (x h : ℝ) (hr : |x| / h > 3 / 2) : dhRoma x h = 0 := by
  simp only [dhRoma]
  rw [if_pos hr]

/-- Middle branch selection. -/
lemma dhRoma_of_mid (x h : ℝ) (h1 : 1 / 2 < |x| / h) (h2 : |x| / h ≤ 3 / 2) :
    dhRoma x h = dhRomaMid (|x| / h) h := by
  simp only [dhRoma]
  rw [if_neg (not_lt.mpr h2), if_pos ⟨h1, h2⟩]

/-- Inner branch selection. -/
lemma dhRoma_of_le (x h : ℝ) (hle : |x| / h ≤ 1 / 2) :
    dhRoma x h = dhRomaIn (|x| / h) h := by
  simp only [dhRoma]
  rw [if_neg (not_lt.mpr (hle.trans (by norm_num))),
    if_neg (fun hc => absurd hc.1 (not_lt.mpr hle))]

/-- The kernel is even in its displacement argument. -/
lemma dhRoma_neg (x h : ℝ) : dhRoma (-x) h = dhRoma x h := by
  simp only [dhRoma, abs_neg]

/-- The 2D kernel is even in the displacement pair. -/
lemma delta_neg (x y h : ℝ) : delta (-x) (-y) h = delta x y h := by
  rw [delta, delta, dhRoma_neg, dhRoma_neg]

/-! ### List helper lemmas -/

/-- Projecting the columns out of an entry list built by a conditional
filterMap. -/
lemma map_fst_filterMap_ite {α β γ : Type} (c : α → Prop) [DecidablePred c]
    (f : α → β) (g : α → γ) :
    ∀ L : List α,
      (L.filterMap (fun v => if c v then some (f v, g v) else none)).map
          Prod.fst =
        L.filterMap (fun v => if c v then some (f v) else none) := by
  intro L
  induction L with
  | nil => rfl
  | cons b t ih =>
    by_cases hc : c b <;> simp [List.filterMap_cons, hc, ih]

/-- A list's length splits into the entries satisfying a Boolean predicate
and those that do not. -/
lemma countP_add_countP_not {α : Type} (p : α → Bool) :
    ∀ L : List α, L.countP p + L.countP (fun v => !p v) = L.length := by
  intro L
  induction L with
  | nil => rfl
  | cons b t ih =>
    cases hpb : p b <;> simp [List.countP_cons, hpb] <;> omega

/-- Conditional filterMap over a cons whose head passes the filter. -/
lemma filterMap_ite_cons_pos {α β : Type} (c : α → Prop) [DecidablePred c]
    (f : α → β) (b : α) (t : List α) (hc : c b) :
    (b :: t).filterMap (fun v => if c v then some (f v) else none) =
      f b :: t.filterMap (fun v => if c v then some (f v) else none) := by
  simp [List.filterMap_cons, hc]

/-- Conditional filterMap over a cons whose head fails the filter. -/
lemma filterMap_ite_cons_neg {α β : Type} (c : α → Prop) [DecidablePred c]
    (f : α → β) (b : α) (t : List α) (hc : ¬c b) :
    (b :: t).filterMap (fun v => if c v then some (f v) else none) =
      t.filterMap (fun v => if c v then some (f v) else none) := by
  simp [List.filterMap_cons, hc]

/-- The body-point loop of Pass 1 for a U row adds, to each running count,
the number of proximate points whose column lies in (respectively outside)
the lambda ownership range; the enumerated columns are exactly those that
the corresponding Pass 2 loop inserts. -/
lemma et_point_loop_countU (s : TairaColoniusSolver2) (xC yC : ℚ) :
    ∀ (L : List ℕ) (a : ℕ × ℕ),
      L.foldl (fun nnz2 l =>
          if |xC - s.x l| < 3 / 2 * s.h ∧ |yC - s.y l| < 3 / 2 * s.h then
            if s.lambdaStart ≤ s.bodyGlobalIndices l ∧
                s.bodyGlobalIndices l < s.lambdaEnd then
              (nnz2.1 + 1, nnz2.2)
            else (nnz2.1, nnz2.2 + 1)
          else nnz2) a =
      (a.1 + (L.filterMap (fun l =>
            if |xC - s.x l| < 3 / 2 * s.h ∧ |yC - s.y l| < 3 / 2 * s.h then
              some (s.bodyGlobalIndices l) else none)).countP
          (fun c => decide (s.lambdaStart ≤ c ∧ c < s.lambdaEnd)),
       a.2 + (L.filterMap (fun l =>
            if |xC - s.x l| < 3 / 2 * s.h ∧ |yC - s.y l| < 3 / 2 * s.h then
              some (s.bodyGlobalIndices l) else none)).countP
          (fun c => !decide (s.lambdaStart ≤ c ∧ c < s.lambdaEnd))) := by
  intro L
  induction L with
  | nil => intro a; simp
  | cons b t ih =>
    intro a
    simp only [List.foldl_cons]
    rw [ih]
    by_cases hprox : |xC - s.x b| < 3 / 2 * s.h ∧ |yC - s.y b| < 3 / 2 * s.h
    · rw [filterMap_ite_cons_pos
        (fun l => |xC - s.x l| < 3 / 2 * s.h ∧ |yC - s.y l| < 3 / 2 * s.h)
        (fun l => s.bodyGlobalIndices l) b t hprox]
      by_cases hin : s.lambdaStart ≤ s.bodyGlobalIndices b ∧
          s.bodyGlobalIndices b < s.lambdaEnd
      · have hd : decide (s.lambdaStart ≤ s.bodyGlobalIndices b ∧
            s.bodyGlobalIndices b < s.lambdaEnd) = true := decide_eq_true hin
        rw [if_pos hprox, if_pos hin,
          List.countP_cons_of_pos
            (fun c => decide (s.lambdaStart ≤ c ∧ c < s.lambdaEnd)) _ hd,
          List.countP_cons_of_neg
            (fun c => !decide (s.lambdaStart ≤ c ∧ c < s.lambdaEnd)) _
            (by simp [hd])]
        simp only [Prod.mk.injEq]
        constructor <;> first
        | omega
        | trivial
      · have hd : decide (s.lambdaStart ≤ s.bodyGlobalIndices b ∧
            s.bodyGlobalIndices b < s.lambdaEnd) = false := decide_eq_false hin
        rw [if_pos hprox, if_neg hin,
          List.countP_cons_of_neg
            (fun c => decide (s.lambdaStart ≤ c ∧ c < s.lambdaEnd)) _
            (by simp [hd]),
          List.countP_cons_of_pos
            (fun c => !decide (s.lambdaStart ≤ c ∧ c < s.lambdaEnd)) _
            (by simp [hd])]
        simp only [Prod.mk.injEq]
        constructor <;> first
        | omega
        | trivial
    · rw [if_neg hprox, filterMap_ite_cons_neg
        (fun l => |xC - s.x l| < 3 / 2 * s.h ∧ |yC - s.y l| < 3 / 2 * s.h)
        (fun l => s.bodyGlobalIndices l) b t hprox]

/-- The body-point loop of Pass 1 for a V row (column offset by the owning
process's point count), in the same form. -/
lemma et_point_loop_countV (s : TairaColoniusSolver2) (xC yC : ℚ) (p : ℕ) :
    ∀ (L : List ℕ) (a : ℕ × ℕ),
      L.foldl (fun nnz2 l =>
          if |xC - s.x l| < 3 / 2 * s.h ∧ |yC - s.y l| < 3 / 2 * s.h then
            if s.lambdaStart ≤ s.bodyGlobalIndices l +
                  s.numBoundaryPointsOnProcess p ∧
                s.bodyGlobalIndices l + s.numBoundaryPointsOnProcess p <
                  s.lambdaEnd then
              (nnz2.1 + 1, nnz2.2)
            else (nnz2.1, nnz2.2 + 1)
          else nnz2) a =
      (a.1 + (L.filterMap (fun l =>
            if |xC - s.x l| < 3 / 2 * s.h ∧ |yC - s.y l| < 3 / 2 * s.h then
              some (s.bodyGlobalIndices l + s.numBoundaryPointsOnProcess p)
            else none)).countP
          (fun c => decide (s.lambdaStart ≤ c ∧ c < s.lambdaEnd)),
       a.2 + (L.filterMap (fun l =>
            if |xC - s.x l| < 3 / 2 * s.h ∧ |yC - s.y l| < 3 / 2 * s.h then
              some (s.bodyGlobalIndices l + s.numBoundaryPointsOnProcess p)
            else none)).countP
          (fun c => !decide (s.lambdaStart ≤ c ∧ c < s.lambdaEnd))) := by
  intro L
  induction L with
  | nil => intro a; simp
  | cons b t ih =>
    intro a
    simp only [List.foldl_cons]
    rw [ih]
    by_cases hprox : |xC - s.x b| < 3 / 2 * s.h ∧ |yC - s.y b| < 3 / 2 * s.h
    · rw [filterMap_ite_cons_pos
        (fun l => |xC - s.x l| < 3 / 2 * s.h ∧ |yC - s.y l| < 3 / 2 * s.h)
        (fun l => s.bodyGlobalIndices l + s.numBoundaryPointsOnProcess p)
        b t hprox]
      by_cases hin : s.lambdaStart ≤ s.bodyGlobalIndices b +
            s.numBoundaryPointsOnProcess p ∧
          s.bodyGlobalIndices b + s.numBoundaryPointsOnProcess p <
            s.lambdaEnd
      · have hd : decide (s.lambdaStart ≤ s.bodyGlobalIndices b +
              s.numBoundaryPointsOnProcess p ∧
            s.bodyGlobalIndices b + s.numBoundaryPointsOnProcess p <
              s.lambdaEnd) = true := decide_eq_true hin
        rw [if_pos hprox, if_pos hin,
          List.countP_cons_of_pos
            (fun c => decide (s.lambdaStart ≤ c ∧ c < s.lambdaEnd)) _ hd,
          List.countP_cons_of_neg
            (fun c => !decide (s.lambdaStart ≤ c ∧ c < s.lambdaEnd)) _
            (by simp [hd])]
        simp only [Prod.mk.injEq]
        constructor <;> first
        | omega
        | trivial
      · have hd : decide (s.lambdaStart ≤ s.bodyGlobalIndices b +
              s.numBoundaryPointsOnProcess p ∧
            s.bodyGlobalIndices b + s.numBoundaryPointsOnProcess p <
              s.lambdaEnd) = false := decide_eq_false hin
        rw [if_pos hprox, if_neg hin,
          List.countP_cons_of_neg
            (fun c => decide (s.lambdaStart ≤ c ∧ c < s.lambdaEnd)) _
            (by simp [hd]),
          List.countP_cons_of_pos
            (fun c => !decide (s.lambdaStart ≤ c ∧ c < s.lambdaEnd)) _
            (by simp [hd])]
        simp only [Prod.mk.injEq]
        constructor <;> first
        | omega
        | trivial
    · rw [if_neg hprox, filterMap_ite_cons_neg
        (fun l => |xC - s.x l| < 3 / 2 * s.h ∧ |yC - s.y l| < 3 / 2 * s.h)
        (fun l => s.bodyGlobalIndices l + s.numBoundaryPointsOnProcess p)
        b t hprox]

/-- The columns of the Pass 2 ET entries for a U row. -/
lemma etEntriesU_cols (s : TairaColoniusSolver2) (xC yC : ℚ) :
    (etEntriesU s xC yC).map Prod.fst =
      (List.range s.numProcs).flatMap (fun procIdx =>
        (s.boundaryPointIndices procIdx).filterMap (fun l =>
          if |xC - s.x l| < 3 / 2 * s.h ∧ |yC - s.y l| < 3 / 2 * s.h then
            some (s.bodyGlobalIndices l) else none)) := by
  rw [etEntriesU, List.map_flatMap]
  have he : (fun procIdx =>
      ((s.boundaryPointIndices procIdx).filterMap (fun l =>
        if |xC - s.x l| < 3 / 2 * s.h ∧ |yC - s.y l| < 3 / 2 * s.h then
          some (s.bodyGlobalIndices l,
            ((truncToInt ((s.h : ℝ) * delta ((xC - s.x l : ℚ) : ℝ)
              ((yC - s.y l : ℚ) : ℝ) (s.h : ℝ)) : ℤ) : ℝ))
        else none)).map Prod.fst) =
      (fun procIdx =>
        (s.boundaryPointIndices procIdx).filterMap (fun l =>
          if |xC - s.x l| < 3 / 2 * s.h ∧ |yC - s.y l| < 3 / 2 * s.h then
            some (s.bodyGlobalIndices l) else none)) :=
    funext (fun procIdx => map_fst_filterMap_ite _ _ _ _)
  rw [he]

/-- The columns of the Pass 2 ET entries for a V row. -/
lemma etEntriesV_cols (s : TairaColoniusSolver2) (xC yC : ℚ) :
    (etEntriesV s xC yC).map Prod.fst =
      (List.range s.numProcs).flatMap (fun procIdx =>
        (s.boundaryPointIndices procIdx).filterMap (fun l =>
          if |xC - s.x l| < 3 / 2 * s.h ∧ |yC - s.y l| < 3 / 2 * s.h then
            some (s.bodyGlobalIndices l +
              s.numBoundaryPointsOnProcess procIdx)
          else none)) := by
  rw [etEntriesV, List.map_flatMap]
  have he : (fun procIdx =>
      ((s.boundaryPointIndices procIdx).filterMap (fun l =>
        if |xC - s.x l| < 3 / 2 * s.h ∧ |yC - s.y l| < 3 / 2 * s.h then
          some (s.bodyGlobalIndices l + s.numBoundaryPointsOnProcess procIdx,
            ((truncToInt ((s.h : ℝ) * delta ((xC - s.x l : ℚ) : ℝ)
              ((yC - s.y l : ℚ) : ℝ) (s.h : ℝ)) : ℤ) : ℝ))
        else none)).map Prod.fst) =
      (fun procIdx =>
        (s.boundaryPointIndices procIdx).filterMap (fun l =>
          if |xC - s.x l| < 3 / 2 * s.h ∧ |yC - s.y l| < 3 / 2 * s.h then
            some (s.bodyGlobalIndices l +
              s.numBoundaryPointsOnProcess procIdx)
          else none)) :=
    funext (fun procIdx => map_fst_filterMap_ite _ _ _ _)
  rw [he]

/-- Pass 1's U-row ET loop adds to the running counts exactly the Pass 2
U-row ET columns, split by the lambda ownership range. -/
lemma etCountU_eq_count (s : TairaColoniusSolver2) (xC yC : ℚ)
    (acc : ℕ × ℕ) :
    etCountU s xC yC acc =
      (acc.1 + ((etEntriesU s xC yC).map Prod.fst).countP
          (fun c => decide (s.lambdaStart ≤ c ∧ c < s.lambdaEnd)),
       acc.2 + ((etEntriesU s xC yC).map Prod.fst).countP
          (fun c => !decide (s.lambdaStart ≤ c ∧ c < s.lambdaEnd))) := by
  rw [etCountU, etEntriesU_cols]
  generalize List.range s.numProcs = P
  induction P generalizing acc with
  | nil => simp
  | cons p t ih =>
    simp only [List.foldl_cons, List.flatMap_cons, List.countP_append]
    rw [et_point_loop_countU s xC yC (s.boundaryPointIndices p) acc, ih]
    simp only [Prod.mk.injEq]
    constructor <;> omega

/-- Pass 1's V-row ET loop adds to the running counts exactly the Pass 2
V-row ET columns, split by the lambda ownership range. -/
lemma etCountV_eq_count (s : TairaColoniusSolver2) (xC yC : ℚ)
    (acc : ℕ × ℕ) :
    etCountV s xC yC acc =
      (acc.1 + ((etEntriesV s xC yC).map Prod.fst).countP
          (fun c => decide (s.lambdaStart ≤ c ∧ c < s.lambdaEnd)),
       acc.2 + ((etEntriesV s xC yC).map Prod.fst).countP
          (fun c => !decide (s.lambdaStart ≤ c ∧ c < s.lambdaEnd))) := by
  rw [etCountV, etEntriesV_cols]
  generalize List.range s.numProcs = P
  induction P generalizing acc with
  | nil => simp
  | cons p t ih =>
    simp only [List.foldl_cons, List.flatMap_cons, List.countP_append]
    rw [et_point_loop_countV s xC yC p (s.boundaryPointIndices p) acc, ih]
    simp only [Prod.mk.injEq]
    constructor <;> omega

/-- Pass 1 for a U row is the diagonal/off-diagonal split of exactly the
columns Pass 2 inserts for that row. -/
lemma pass1RowU_eq_split (s : TairaColoniusSolver2) (j i : ℤ) :
    pass1RowU s j i =
      countNumNonZeros ((pass2RowU s j i).map Prod.fst)
        s.lambdaStart s.lambdaEnd := by
  rw [pass1RowU, pass2RowU, etCountU_eq_count]
  simp [countNumNonZeros, List.map_append, List.countP_append,
    List.countP_cons]
  constructor <;> ring

/-- Pass 1 for a V row is the diagonal/off-diagonal split of exactly the
columns Pass 2 inserts for that row. -/
lemma pass1RowV_eq_split (s : TairaColoniusSolver2) (j i : ℤ) :
    pass1RowV s j i =
      countNumNonZeros ((pass2RowV s j i).map Prod.fst)
        s.lambdaStart s.lambdaEnd := by
  rw [pass1RowV, pass2RowV, etCountV_eq_count]
  simp [countNumNonZeros, List.map_append, List.countP_append,
    List.countP_cons]
  constructor <;> ring

/-- The two components of countNumNonZeros always sum to the number of
candidate columns. -/
lemma countNumNonZeros_sum (cols : List ℤ) (lo hi : ℤ) :
    (countNumNonZeros cols lo hi).1 + (countNumNonZeros cols lo hi).2 =
      cols.length := by
  rw [countNumNonZeros]
  exact countP_add_countP_not (fun c => decide (lo ≤ c ∧ c < hi)) cols

/-- Per U row, predicted nonzeros equal inserted entries. -/
lemma pass1RowU_sum (s : TairaColoniusSolver2) (j i : ℤ) :
    (pass1RowU s j i).1 + (pass1RowU s j i).2 = (pass2RowU s j i).length := by
  rw [pass1RowU_eq_split, countNumNonZeros_sum, List.length_map]

/-- Per V row, predicted nonzeros equal inserted entries. -/
lemma pass1RowV_sum (s : TairaColoniusSolver2) (j i : ℤ) :
    (pass1RowV s j i).1 + (pass1RowV s j i).2 = (pass2RowV s j i).length := by
  rw [pass1RowV_eq_split, countNumNonZeros_sum, List.length_map]

/-- Claim C4: for every displacement x and spacing h > 0, dhRoma(x, h)
returns 0 when |x|/h > 1.5, returns (1/(6h))(5 - 3r - sqrt(-3(1-r)^2 + 1))
with r = |x|/h when 0.5 < r <= 1.5, returns (1/(3h))(1 + sqrt(-3r^2 + 1))
when r <= 0.5, and the 2D kernel delta(x, y, h) is the product
dhRoma(x, h) * dhRoma(y, h). -/
theorem dhRoma_branch_formulas (x h : ℝ) (hh : 0 < h) :
    (|x| / h > 3 / 2 → dhRoma x h = 0) ∧
    (1 / 2 < |x| / h ∧ |x| / h ≤ 3 / 2 →
      dhRoma x h =
        1 / (6 * h) *
          (5 - 3 * (|x| / h) - Real.sqrt (-3 * (1 - |x| / h) ^ 2 + 1))) ∧
    (|x| / h ≤ 1 / 2 →
      dhRoma x h = 1 / (3 * h) * (1 + Real.sqrt (-3 * (|x| / h) ^ 2 + 1))) ∧
    ∀ y : ℝ, delta x y h = dhRoma x h * dhRoma y h := by
  refine ⟨fun hr => dhRoma_of_gt x h hr, fun hm => ?_, fun hle => ?_,
    fun y => rfl⟩
  · rw [dhRoma_of_mid x h hm.1 hm.2, dhRomaMid]
    have e : -3 * (1 - |x| / h) * (1 - |x| / h) + 1 =
        -3 * (1 - |x| / h) ^ 2 + 1 := by ring
    rw [e]
  · rw [dhRoma_of_le x h hle, dhRomaIn]
    have e : -3 * (|x| / h) * (|x| / h) + 1 = -3 * (|x| / h) ^ 2 + 1 := by
      ring
    rw [e]

/-- Witness for claim C4 at x = 2, h = 1: the displacement lies outside the
support, so the kernel evaluates to zero. -/
theorem dhRoma_branch_formulas_witness : (0 : ℝ) < 1 ∧ dhRoma 2 1 = 0 :=
  ⟨one_pos, (dhRoma_branch_formulas 2 1 one_pos).1
    (by rw [abs_of_pos (by norm_num : (0 : ℝ) < 2)]; norm_num)⟩

/-- Claim C7: in exact real arithmetic the kernel is continuous at the
junction radii: the inner and middle branches agree at r = 1/2, where both
evaluate to 1/(2h), and the middle branch vanishes at r = 3/2, matching the
outer zero branch; correspondingly dhRoma(h/2, h) = 1/(2h) and
dhRoma(3h/2, h) = 0. -/
theorem dhRoma_junction_continuity (h : ℝ) (hh : 0 < h) :
    dhRomaIn (1 / 2) h = 1 / (2 * h) ∧
    dhRomaMid (1 / 2) h = 1 / (2 * h) ∧
    dhRomaMid (3 / 2) h = 0 ∧
    dhRoma (h / 2) h = 1 / (2 * h) ∧
    dhRoma (3 * h / 2) h = 0 := by
  have hne : h ≠ 0 := ne_of_gt hh
  have s14 : Real.sqrt (1 / 4) = 1 / 2 := by
    rw [show (1 / 4 : ℝ) = (1 / 2) ^ 2 by norm_num,
      Real.sqrt_sq (by norm_num : (0 : ℝ) ≤ 1 / 2)]
  have hin : dhRomaIn (1 / 2) h = 1 / (2 * h) := by
    rw [dhRomaIn, show (-3 * (1 / 2 : ℝ) * (1 / 2) + 1) = 1 / 4 by norm_num,
      s14]
    field_simp
    ring
  have hmid : dhRomaMid (1 / 2) h = 1 / (2 * h) := by
    rw [dhRomaMid,
      show (-3 * (1 - 1 / 2 : ℝ) * (1 - 1 / 2) + 1) = 1 / 4 by norm_num, s14]
    field_simp
    ring
  have hmid2 : dhRomaMid (3 / 2) h = 0 := by
    rw [dhRomaMid,
      show (-3 * (1 - 3 / 2 : ℝ) * (1 - 3 / 2) + 1) = 1 / 4 by norm_num, s14]
    norm_num
  have hr1 : |h / 2| / h = 1 / 2 := by
    rw [abs_of_pos (by positivity)]
    field_simp
    ring
  have hr2 : |3 * h / 2| / h = 3 / 2 := by
    rw [abs_of_pos (by positivity)]
    field_simp
    ring
  refine ⟨hin, hmid, hmid2, ?_, ?_⟩
  · rw [dhRoma_of_le (h / 2) h (le_of_eq hr1), hr1, hin]
  · rw [dhRoma_of_mid (3 * h / 2) h (by rw [hr2]; norm_num)
      (le_of_eq hr2), hr2, hmid2]

/-- Witness for claim C7 at h = 1. -/
theorem dhRoma_junction_continuity_witness :
    (0 : ℝ) < 1 ∧ dhRoma ((1 : ℝ) / 2) 1 = 1 / (2 * 1) :=
  ⟨one_pos, (dhRoma_junction_continuity 1 one_pos).2.2.2.1⟩

/-- Claim C8: for every displacement x and every spacing h > 0, the kernel
value dhRoma(x, h) is non-negative in exact real arithmetic. -/
theorem dhRoma_nonneg (x h : ℝ) (hh : 0 < h) : 0 ≤ dhRoma x h := by
  simp only [dhRoma]
  split_ifs with h1 h2
  · exact le_rfl
  · have hr2 : |x| / h ≤ 3 / 2 := h2.2
    have hA : -3 * (1 - |x| / h) * (1 - |x| / h) + 1 ≤
        (5 - 3 * (|x| / h)) ^ 2 := by nlinarith
    have h5 : 0 ≤ 5 - 3 * (|x| / h) := by linarith
    have hs : Real.sqrt (-3 * (1 - |x| / h) * (1 - |x| / h) + 1) ≤
        5 - 3 * (|x| / h) := by
      calc Real.sqrt (-3 * (1 - |x| / h) * (1 - |x| / h) + 1) ≤
            Real.sqrt ((5 - 3 * (|x| / h)) ^ 2) := Real.sqrt_le_sqrt hA
        _ = 5 - 3 * (|x| / h) := Real.sqrt_sq h5
    have h6 : 0 ≤ 1 / (6 * h) := by positivity
    rw [dhRomaMid]
    exact mul_nonneg h6 (by linarith)
  · have h3 : 0 ≤ 1 / (3 * h) := by positivity
    rw [dhRomaIn]
    exact mul_nonneg h3 (by positivity)

/-- Witness for claim C8 at x = 0, h = 1. -/
theorem dhRoma_nonneg_witness : (0 : ℝ) < 1 ∧ 0 ≤ dhRoma 0 1 :=
  ⟨one_pos, dhRoma_nonneg 0 1 one_pos⟩

/-- Claim C9 (implicit): for every x and h > 0 the branch of dhRoma actually
evaluated has a square-root argument of at least 1/4: when r = |x|/h <= 0.5
the inner branch is taken and -3r^2 + 1 >= 1/4, and when 0.5 < r <= 1.5 the
middle branch is taken and -3(1-r)^2 + 1 >= 1/4, so in exact arithmetic the
function never takes the square root of a negative number. -/
theorem dhRoma_sqrt_args_bounded (x h : ℝ) (hh : 0 < h) :
    (|x| / h ≤ 1 / 2 →
      dhRoma x h = dhRomaIn (|x| / h) h ∧
        1 / 4 ≤ -3 * (|x| / h) * (|x| / h) + 1) ∧
    (1 / 2 < |x| / h ∧ |x| / h ≤ 3 / 2 →
      dhRoma x h = dhRomaMid (|x| / h) h ∧
        1 / 4 ≤ -3 * (1 - |x| / h) * (1 - |x| / h) + 1) := by
  have hr0 : 0 ≤ |x| / h := div_nonneg (abs_nonneg x) hh.le
  constructor
  · intro hle
    refine ⟨dhRoma_of_le x h hle, ?_⟩
    nlinarith
  · rintro ⟨hm1, hm2⟩
    refine ⟨dhRoma_of_mid x h hm1 hm2, ?_⟩
    nlinarith [mul_nonneg
      (by linarith : (0 : ℝ) ≤ 1 / 2 - (1 - |x| / h))
      (by linarith : (0 : ℝ) ≤ 1 - |x| / h + 1 / 2)]

/-- Witness for claim C9 at x = 0, h = 1 (inner branch). -/
theorem dhRoma_sqrt_args_bounded_witness :
    (0 : ℝ) < 1 ∧
      (dhRoma 0 1 = dhRomaIn (|(0 : ℝ)| / 1) 1 ∧
        1 / 4 ≤ -3 * (|(0 : ℝ)| / 1) * (|(0 : ℝ)| / 1) + 1) :=
  ⟨one_pos, (dhRoma_sqrt_args_bounded 0 1 one_pos).1 (by norm_num)⟩

/-! ### Structural claims about the two-pass builder -/

/-- Claim C1: for every mesh partition and body-point configuration, and for
every local row in localIdx order, the nonzero count predicted by Pass 1
(d_nnz[row] + o_nnz[row]) equals the number of matrix entries inserted for
that row by Pass 2 (two gradient entries plus one entry per body point
passing the proximity test). -/
theorem pass1_counts_match_pass2 (s : TairaColoniusSolver2) :
    (pass1Counts s).map (fun nnz => nnz.1 + nnz.2) =
      (pass2Rows s).map List.length := by
  rw [pass1Counts, pass2Rows, List.map_append, List.map_append,
    List.map_map, List.map_map, List.map_map, List.map_map]
  congr 1
  · exact List.map_congr_left (fun ji _ => pass1RowU_sum s ji.1 ji.2)
  · exact List.map_congr_left (fun ji _ => pass1RowV_sum s ji.1 ji.2)

/-- Claim C3: regardless of mesh size or body-point configuration, every
Pass 2 row starts with exactly two gradient entries, with values -1 and +1,
at the two pressure cells adjacent to the row's velocity face (cells (j, i)
and (j, i+1) for a U row, cells (j, i) and (j+1, i) for a V row); the rest
of the row consists only of the body-force entries. -/
theorem gradient_block_two_entries (s : TairaColoniusSolver2) (j i : ℤ) :
    (pass2RowU s j i).take 2 =
        [(s.pGlobalIdx j i, (-1 : ℝ)), (s.pGlobalIdx j (i + 1), (1 : ℝ))] ∧
    (pass2RowU s j i).drop 2 =
        etEntriesU s (s.mesh.x (i + 1))
          (1 / 2 * (s.mesh.y j + s.mesh.y (j + 1))) ∧
    (pass2RowV s j i).take 2 =
        [(s.pGlobalIdx j i, (-1 : ℝ)), (s.pGlobalIdx (j + 1) i, (1 : ℝ))] ∧
    (pass2RowV s j i).drop 2 =
        etEntriesV s (1 / 2 * (s.mesh.x i + s.mesh.x (i + 1)))
          (s.mesh.y (j + 1)) :=
  ⟨rfl, rfl, rfl, rfl⟩

/-- A concrete one-process configuration with a single body point at the
origin, used by the claim C2 failing-input theorem and the witnesses
below. -/
def sEx : TairaColoniusSolver2 where
  mesh := { x := fun i => (i : ℚ), y := fun j => (j : ℚ) }
  uMstart := 0
  uNstart := 0
  uM := 1
  uN := 1
  vMstart := 0
  vNstart := 0
  vM := 1
  vN := 1
  pGlobalIdx := fun j i => 2 * j + i
  qStart := 0
  lambdaStart := 0
  lambdaEnd := 4
  numProcs := 1
  boundaryPointIndices := fun _ => [0]
  bodyGlobalIndices := fun _ => 2
  numBoundaryPointsOnProcess := fun _ => 1
  x := fun _ => 0
  y := fun _ => 0
  h := 1

/-- Claim C2 is refuted by the code (a code bug): Pass 2 declares the
variable value as PetscInt (source line 27), so the assignments
value = h*delta(...) at source lines 137 and 166 truncate the kernel
product toward zero before MatSetValue receives it.  At the failing input
h = 1 with the body point coincident with the U-face location (so
dx = dy = 0), the exact product required by the claim is
h * delta(0, 0, 1) = 4/9, but the entry actually inserted is 0. -/
theorem et_entry_value_truncated :
    (sEx.bodyGlobalIndices 0, (0 : ℝ)) ∈ etEntriesU sEx 0 0 ∧
    (sEx.h : ℝ) * delta ((0 - sEx.x 0 : ℚ) : ℝ) ((0 - sEx.y 0 : ℚ) : ℝ)
        (sEx.h : ℝ) = 4 / 9 ∧
    (4 / 9 : ℝ) ≠ 0 := by
  have hdh : dhRoma 0 1 = 2 / 3 := by
    rw [dhRoma_of_le 0 1 (by norm_num), dhRomaIn]
    norm_num [Real.sqrt_one]
  have hx0 : ((0 - sEx.x 0 : ℚ) : ℝ) = 0 := by norm_num [sEx]
  have hy0 : ((0 - sEx.y 0 : ℚ) : ℝ) = 0 := by norm_num [sEx]
  have hh1 : (sEx.h : ℝ) = 1 := by norm_num [sEx]
  have hprod : (sEx.h : ℝ) * delta ((0 - sEx.x 0 : ℚ) : ℝ)
      ((0 - sEx.y 0 : ℚ) : ℝ) (sEx.h : ℝ) = 4 / 9 := by
    rw [hx0, hy0, hh1]
    simp only [delta]
    rw [hdh]
    norm_num
  have hval : ((truncToInt ((sEx.h : ℝ) * delta ((0 - sEx.x 0 : ℚ) : ℝ)
      ((0 - sEx.y 0 : ℚ) : ℝ) (sEx.h : ℝ)) : ℤ) : ℝ) = 0 := by
    rw [hprod, truncToInt, if_pos (by norm_num : (0 : ℝ) ≤ 4 / 9)]
    have hfl : ⌊(4 / 9 : ℝ)⌋ = 0 := by
      apply Int.floor_eq_zero_iff.mpr
      constructor <;> norm_num
    rw [hfl]
    norm_num
  refine ⟨?_, hprod, by norm_num⟩
  rw [etEntriesU]
  refine List.mem_flatMap.mpr ⟨0, ?_, ?_⟩
  · simp [sEx]
  · refine List.mem_filterMap.mpr ⟨0, ?_, ?_⟩
    · simp [sEx]
    · have hprox : |(0 : ℚ) - sEx.x 0| < 3 / 2 * sEx.h ∧
          |(0 : ℚ) - sEx.y 0| < 3 / 2 * sEx.h := by
        constructor <;> norm_num [sEx]
      rw [if_pos hprox, hval]

/-- Claim C5: the 3D specialization TairaColoniusSolver<3>::generateBNQ is
a no-op: its entire body is commented out, so it returns with every piece
of solver state (BNQ, QT, BN and everything else) unchanged. -/
theorem generateBNQ3_noop (s : TairaColoniusSolver3) :
    s.generateBNQ = s ∧
    s.generateBNQ.BNQ = s.BNQ ∧ s.generateBNQ.QT = s.QT ∧
    s.generateBNQ.BN = s.BN ∧ s.generateBNQ.rest = s.rest :=
  ⟨rfl, rfl, rfl, rfl, rfl⟩

/-- Claim C6: the 2D builder finalizes by assembling BNQ, then forming QT as
the transpose, then diagonally scaling BNQ by BN — so QT is the transpose of
the unscaled operator, and in general not the transpose of the scaled
operator returned as BNQ. -/
theorem finalize_transpose_before_scale :
    (∀ (A : Mat) (d : ℤ → ℝ),
        finalizeBNQ A d = (MatDiagonalScale A d, MatTranspose A)) ∧
    ∃ (A : Mat) (d : ℤ → ℝ),
      (finalizeBNQ A d).2 ≠ MatTranspose ((finalizeBNQ A d).1) := by
  refine ⟨fun A d => rfl,
    fun _ _ => (1 : ℝ), fun _ => (2 : ℝ), fun hEq => ?_⟩
  have h0 := congrFun (congrFun hEq 0) 0
  simp only [finalizeBNQ, MatTranspose, MatDiagonalScale] at h0
  norm_num at h0

/-- Claim C10 (implicit): for a body point l owned by process p, every U row
uses the body-force column bodyGlobalIndices[l] while every V row uses
bodyGlobalIndices[l] + numBoundaryPointsOnProcess[p]; Pass 1 classifies
exactly the columns Pass 2 inserts (the offset rule is applied identically
in both passes), and the x-force and y-force columns of the same point are
distinct whenever the owning process has at least one boundary point. -/
theorem body_column_offset_rule (s : TairaColoniusSolver2) (p l : ℕ)
    (hp : p < s.numProcs) (hl : l ∈ s.boundaryPointIndices p) :
    (∀ xC yC : ℚ, |xC - s.x l| < 3 / 2 * s.h → |yC - s.y l| < 3 / 2 * s.h →
        s.bodyGlobalIndices l ∈ (etEntriesU s xC yC).map Prod.fst) ∧
    (∀ xC yC : ℚ, |xC - s.x l| < 3 / 2 * s.h → |yC - s.y l| < 3 / 2 * s.h →
        s.bodyGlobalIndices l + s.numBoundaryPointsOnProcess p ∈
          (etEntriesV s xC yC).map Prod.fst) ∧
    (1 ≤ s.numBoundaryPointsOnProcess p →
        s.bodyGlobalIndices l ≠
          s.bodyGlobalIndices l + s.numBoundaryPointsOnProcess p) ∧
    (∀ j i : ℤ, pass1RowU s j i =
        countNumNonZeros ((pass2RowU s j i).map Prod.fst)
          s.lambdaStart s.lambdaEnd) ∧
    (∀ j i : ℤ, pass1RowV s j i =
        countNumNonZeros ((pass2RowV s j i).map Prod.fst)
          s.lambdaStart s.lambdaEnd) := by
  refine ⟨fun xC yC hx hy => ?_, fun xC yC hx hy => ?_,
    fun hn => by omega,
    fun j i => pass1RowU_eq_split s j i,
    fun j i => pass1RowV_eq_split s j i⟩
  · rw [etEntriesU_cols]
    refine List.mem_flatMap.mpr ⟨p, List.mem_range.mpr hp,
      List.mem_filterMap.mpr ⟨l, hl, ?_⟩⟩
    rw [if_pos ⟨hx, hy⟩]
  · rw [etEntriesV_cols]
    refine List.mem_flatMap.mpr ⟨p, List.mem_range.mpr hp,
      List.mem_filterMap.mpr ⟨l, hl, ?_⟩⟩
    rw [if_pos ⟨hx, hy⟩]

/-- Witness for claim C10 on the concrete configuration sEx: process 0 owns
point 0 and has one boundary point, so the U and V columns of that point
are distinct. -/
theorem body_column_offset_rule_witness :
    0 < sEx.numProcs ∧ 0 ∈ sEx.boundaryPointIndices 0 ∧
      (1 ≤ sEx.numBoundaryPointsOnProcess 0 →
        sEx.bodyGlobalIndices 0 ≠
          sEx.bodyGlobalIndices 0 + sEx.numBoundaryPointsOnProcess 0) :=
  ⟨by norm_num [sEx], by simp [sEx],
    (body_column_offset_rule sEx 0 0 (by norm_num [sEx])
      (by simp [sEx])).2.2.1⟩

end PetIBM
